import Mathlib

/-!
Verification of the mount middleware of the `stick` web framework
(`src/lib/middleware/mount.js`, and the older variant
`src/lib/stick/middleware/mount.js`) against its specification.

JavaScript strings are modelled as `List Char` (`JStr`); JS `undefined`/`null`
string-valued properties are modelled as `Option JStr` with `none` for the
absent value.  The JS truthiness test on such a value (`if (spec.path)`) is
`truthy`: `none` and the empty string are falsy.  The external library
functions `strings.startsWith` / `strings.endsWith` (from `ringo/utils/strings`,
an external collaborator of the repository) have standard
prefix/suffix-test semantics and are modelled directly on the character lists;
the JS `String.prototype.slice(n)` used on `pathInfo` is `List.drop`
(it throws a `TypeError` when the receiver is `undefined`, modelled by the
`jsError` dispatch outcome).  JS object identity for applications/handlers is
modelled by a numeric id (`Nat`); the mutable `mountInfo` property bag attached
to handler objects is modelled as an explicit side table keyed by handler id.
-/

namespace Stick

/-- A JavaScript string, modelled as its list of characters. -/
abbrev JStr := List Char

/-- Character list of a Lean string literal, used to write concrete JS strings. -/
def str (s : String) : JStr := s.data

/-- JS truthiness of a string-or-undefined value: `undefined`, `null` and `""`
are falsy, every non-empty string is truthy. -/
def truthy : Option JStr → Bool
  | none => false
  | some s => !s.isEmpty

/-- JS strict equality `===` between two string-or-undefined values
(`undefined === undefined` is `true`). -/
def jsStrictEq : Option JStr → Option JStr → Bool
  | some a, some b => a == b
  | none, none => true
  | _, _ => false

/-- JS strict equality `===` between a definite string and a
string-or-undefined value. -/
def jsStrictEqS (s : JStr) : Option JStr → Bool
  | some t => s == t
  | none => false

/-- JS string coercion of a string-or-undefined value (`String(undefined)`
is `"undefined"`), as performed by `+` concatenation and by the string
searching builtins. -/
def jsStrOf : Option JStr → JStr
  | some s => s
  | none => str "undefined"

/-- `strings.startsWith(s, t)` of `ringo/utils/strings`: `t` is a prefix of `s`. -/
def jsStartsWith (s t : JStr) : Bool := t.isPrefixOf s

/-- `strings.endsWith(s, t)` of `ringo/utils/strings`: `t` is a suffix of `s`. -/
def jsEndsWith (s t : JStr) : Bool := t.isSuffixOf s

/-- Association-list read, modelling a JS property/dictionary access that may
yield `undefined`. -/
def envGet {κ α : Type} [BEq κ] : List (κ × α) → κ → Option α
  | [], _ => none
  | (k', v) :: rest, k => if k' == k then some v else envGet rest k

/-- Association-list write, modelling a JS property/dictionary assignment. -/
def envSet {κ α : Type} [BEq κ] : List (κ × α) → κ → α → List (κ × α)
  | [], k, v => [(k, v)]
  | (k', v') :: rest, k, v =>
    if k' == k then (k, v) :: rest else (k', v') :: envSet rest k v

/-! ## Data model -/

/-- The object form of a mount spec: optional `path` and `host` properties. -/
structure SpecObj where
  path : Option JStr
  host : Option JStr
deriving DecidableEq

/-- The `spec` argument of `app.mount(spec, target, noRedirect)`: a string,
an object, or a falsy non-string value (`null`/`undefined`/...). -/
inductive SpecArg where
  | strArg (s : JStr)
  | obj (o : SpecObj)
  | nullish
deriving DecidableEq

/-- One entry of the `mounts` registry built by `app.mount`
(`src/lib/middleware/mount.js`, registration): the normalized spec fields,
the redirect policy, and the resolved target application. -/
structure Mount where
  path : Option JStr
  canonicalPath : Option JStr
  host : Option JStr
  redirect : Bool
  appId : Nat
deriving DecidableEq

/-- One element of a target's `mountInfo` list: the reverse link pushed by
`app.mount` (`resolved.mountInfo.push({parent: app, path: spec.path,
host: spec.host})`).  The parent application object is modelled by its id. -/
structure RLink where
  parent : Nat
  path : Option JStr
  host : Option JStr
deriving DecidableEq

/-- Global registration state: the per-application `mounts` registries and the
per-handler `mountInfo` reverse-link lists (the latter is the mutable property
bag attached to handler objects, modelled as a side table keyed by handler id). -/
structure St where
  registries : List (Nat × List Mount)
  mountInfo : List (Nat × List RLink)
deriving DecidableEq

/-- The empty registration state (no registries, no reverse links). -/
def stEmpty : St := ⟨[], []⟩

/-- A JSGI request, restricted to the fields the mount middleware reads or
writes.  `host` is the value of `req.headers.get("host")` with `null`
already coalesced to `""` (the middleware only ever uses it through
`req.headers.get("host") || ""`). -/
structure Request where
  scriptName : JStr
  pathInfo : Option JStr
  host : JStr
  method : JStr
  queryString : JStr
deriving DecidableEq

/-- What the dispatch function does with a request: return the 303 redirect
response itself, invoke a mounted application on the (possibly rewritten)
request, fall through to `next` with the request, or raise a JS `TypeError`
(`req.pathInfo.slice` with `pathInfo === undefined`). -/
inductive DispatchResult where
  | response (status : Nat) (location : JStr) (body : List JStr)
  | toApp (appId : Nat) (req : Request)
  | toNext (req : Request)
  | jsError
deriving DecidableEq

/-- A JSGI response, restricted to the shape the middleware produces. -/
structure Response where
  status : Nat
  headers : List (JStr × JStr)
  body : List JStr
deriving DecidableEq

/-! ## Registration (`app.mount`, src/lib/middleware/mount.js lines 47-87) -/

/-- Slash-specificity of a mount: the number of `/` characters in its path,
`(m1.path || '').match(/\//g)` counted, with a pathless mount counting 0. -/
def slashes (m : Mount) : Nat := (m.path.getD []).count '/'

/-- The comparator `mostSpecificPathFirst` (src/lib/middleware/mount.js lines
94-100) as an ordering relation: `m1` may precede `m2` iff
`slash2 - slash1 <= 0`, i.e. mounts with more slashes sort first. -/
def relMount : Mount → Mount → Prop := fun m1 m2 => slashes m2 ≤ slashes m1

instance : DecidableRel relMount := fun _ _ => Nat.decLe _ _

instance : IsTotal Mount relMount := ⟨fun a b => Nat.le_total (slashes b) (slashes a)⟩

instance : IsTrans Mount relMount := ⟨fun _ _ _ hab hbc => Nat.le_trans hbc hab⟩

/-- The body of `app.mount(spec, target, noRedirect)` up to and including the
normalization of the spec, producing the registry entry: `none` models the
synchronous `throw new Error("Missing spec")` (raised exactly when `spec` is
falsy and not a string).  A string spec is first wrapped as `{path: spec}`.
If `spec.path` is truthy it is normalized: a trailing slash makes it the
`canonicalPath` verbatim with `path` the slice dropping the last character,
otherwise `canonicalPath = path + "/"`.  `spec.host` is kept when truthy and
set to `null` otherwise.  The target is modelled as already resolved to a
handler id (`resolveApp` of `src/lib/helpers` is an external resolution
collaborator; it returns the handler itself when given one directly). -/
def buildMount (spec0 : SpecArg) (target : Nat) (noRedirect : Bool) : Option Mount :=
  match spec0 with
  | .nullish => none
  | .strArg s => some (normalizeSpec ⟨some s, none⟩ target noRedirect)
  | .obj o => some (normalizeSpec o target noRedirect)
where
  normalizeSpec (o : SpecObj) (target : Nat) (noRedirect : Bool) : Mount :=
    let pc : Option JStr × Option JStr :=
      match o.path with
      | some p =>
        if p.isEmpty then (some p, none)
        else if jsEndsWith p (str "/") then (some p.dropLast, some p)
        else (some p, some (p ++ str "/"))
      | none => (none, none)
    let host : Option JStr :=
      match o.host with
      | some h => if h.isEmpty then none else some h
      | none => none
    { path := pc.1, canonicalPath := pc.2, host := host,
      redirect := !noRedirect, appId := target }

/-- Full effect of one `app.mount(spec, target, noRedirect)` call made on the
application `owner`: normalize the spec (throwing on a falsy non-string spec),
push the reverse link `{parent: app, path: spec.path, host: spec.host}` onto
the target's `mountInfo` (creating the list if absent), push the new mount
onto the owner's registry and re-sort it with `mostSpecificPathFirst`
(JS `Array.prototype.sort` is stable, so the sort is modelled by the stable
`List.insertionSort`). -/
def appMount (st : St) (owner : Nat) (spec0 : SpecArg) (target : Nat)
    (noRedirect : Bool) : Except Unit St :=
  match buildMount spec0 target noRedirect with
  | none => .error ()
  | some m =>
    let links := (envGet st.mountInfo target).getD []
    let mountInfo := envSet st.mountInfo target (links ++ [⟨owner, m.path, m.host⟩])
    let reg := (envGet st.registries owner).getD []
    let registries := envSet st.registries owner (List.insertionSort relMount (reg ++ [m]))
    .ok ⟨registries, mountInfo⟩

/-- A sequence of `app.mount` calls, all made on application 0 (the single
dispatching application the registry claims are about). -/
def registerAll0 (st : St) : List (SpecArg × Nat × Bool) → Except Unit St
  | [] => .ok st
  | c :: cs =>
    match appMount st 0 c.1 c.2.1 c.2.2 with
    | .error e => .error e
    | .ok st1 => registerAll0 st1 cs

/-- The registry entries of the given calls in raw registration (push) order,
before any sorting: the specification-side reference order used to state the
stability of the registry ordering. -/
def pushedMounts (calls : List (SpecArg × Nat × Bool)) : List Mount :=
  calls.filterMap (fun c => buildMount c.1 c.2.1 c.2.2)

/-- Application 0's registry in a registration state. -/
def registry0 (st : St) : List Mount := (envGet st.registries 0).getD []

/-- Is a registration outcome a success? -/
def exceptOk (e : Except Unit St) : Bool :=
  match e with
  | .ok _ => true
  | .error _ => false

/-- The state of a successful registration outcome (the empty state for a
failed one; only used beneath an `exceptOk` hypothesis). -/
def exceptState (e : Except Unit St) : St :=
  match e with
  | .ok st => st
  | .error _ => stEmpty

/-! ## Matching and dispatch (src/lib/middleware/mount.js lines 74-81, 105-133) -/

/-- `req.pathInfo || "/"`: the effective request path used by the match test,
substituting `"/"` for an absent or empty `pathInfo`. -/
def effPath : Option JStr → JStr
  | none => str "/"
  | some s => if s.isEmpty then str "/" else s

/-- The host conjunct of the registry `match` closure:
`!spec.host || (host && strings.endsWith(host, spec.host))`. -/
def hostMatches (mhost : Option JStr) (hostHeader : JStr) : Bool :=
  !(truthy mhost) || (!hostHeader.isEmpty && jsEndsWith hostHeader (jsStrOf mhost))

/-- The path conjunct of the registry `match` closure:
`!spec.path || path === spec.path || (path && strings.startsWith(path, spec.canonicalPath))`
with `path = req.pathInfo || "/"`. -/
def pathMatches (mpath mcanonical : Option JStr) (pathInfo : Option JStr) : Bool :=
  let path := effPath pathInfo
  !(truthy mpath) || jsStrictEqS path mpath
    || (!path.isEmpty && jsStartsWith path (jsStrOf mcanonical))

/-- The `match(req)` closure of a registry entry: host test and path test in
conjunction. -/
def Mount.matches (m : Mount) (req : Request) : Bool :=
  hostMatches m.host req.host && pathMatches m.path m.canonicalPath req.pathInfo

/-- The guard of the canonicalization redirect inside the dispatch loop:
`mount.redirect && req.pathInfo === mount.path && req.method === "GET"`.
Note it compares the raw `req.pathInfo` (no `|| "/"` substitution). -/
def redirectGuard (m : Mount) (req : Request) : Bool :=
  m.redirect && jsStrictEq req.pathInfo m.path && req.method == str "GET"

/-- The `location` computed for the 303 redirect:
`req.scriptName + mount.canonicalPath`, plus `"?" + req.queryString` when the
query string is truthy. -/
def redirectLocation (m : Mount) (req : Request) : JStr :=
  req.scriptName ++ jsStrOf m.canonicalPath
    ++ (if req.queryString.isEmpty then [] else '?' :: req.queryString)

/-- The dispatch loop of the returned middleware function `mount(req)`
(src/lib/middleware/mount.js lines 105-133): walk the registry in order; on the
first entry whose `match(req)` holds, either return the 303 canonicalization
redirect, or (for a truthy mount path) rewrite `scriptName += mount.path`,
`pathInfo = req.pathInfo.slice(mount.path.length)` in place and invoke the
mounted app, or invoke it on the untouched request; with no matching entry,
fall through to `next(req)`. -/
def dispatchGo : List Mount → Request → DispatchResult
  | [], req => .toNext req
  | m :: rest, req =>
    if m.matches req then
      if redirectGuard m req then
        .response 303 (redirectLocation m req)
          [str "See other: ", redirectLocation m req]
      else if truthy m.path then
        match req.pathInfo with
        | none => .jsError
        | some s =>
          .toApp m.appId
            { req with scriptName := req.scriptName ++ m.path.getD []
                       pathInfo := some (s.drop (m.path.getD []).length) }
      else .toApp m.appId req
    else dispatchGo rest req

/-- Interpretation of a dispatch outcome against concrete application handlers
and the wrapped chain `next`, producing the middleware's actual return value
(`none` models the JS `TypeError`): the redirect case returns the literal
`{status: 303, headers: {location: ...}, body: ["See other: ", ...]}` object,
the other cases return the called function's response verbatim. -/
def runResult (apps : Nat → Request → Response) (next : Request → Response) :
    DispatchResult → Option Response
  | .response s l b => some ⟨s, [(str "location", l)], b⟩
  | .toApp i r => some (apps i r)
  | .toNext r => some (next r)
  | .jsError => none

/-- The complete middleware function: dispatch, then interpret the outcome. -/
def mountMw (apps : Nat → Request → Response) (next : Request → Response)
    (mounts : List Mount) (req : Request) : Option Response :=
  runResult apps next (dispatchGo mounts req)

/-! ## Reverse resolution (`exports.lookup`, src/lib/middleware/mount.js lines 140-166) -/

/-- Membership test on the `seen` list (`seen.indexOf(parent) === -1` negated). -/
def memb (a : Nat) : List Nat → Bool
  | [] => false
  | b :: rest => if b == a then true else memb a rest

/-- The inner `for` loop of `lookup`: the first reverse link whose parent has
not been visited yet (every link's `parent` field is an application object and
hence truthy, so the `mount.parent &&` conjunct always passes). -/
def findLink (links : List RLink) (seen : List Nat) : Option RLink :=
  links.find? (fun l => !(memb l.parent seen))

/-- All reverse links recorded anywhere in a `mountInfo` side table. -/
def allLinks : List (Nat × List RLink) → List RLink
  | [] => []
  | (_, ls) :: rest => ls ++ allLinks rest

/-- All parent ids recorded anywhere in a `mountInfo` side table. -/
def allParents (env : List (Nat × List RLink)) : List Nat :=
  (allLinks env).map RLink.parent

/-- Fuel bound under which the `lookup` walk is fully evaluated: each step of
the outer loop pushes a previously unseen parent onto `seen`, and every parent
it can push is recorded in the table, so `allParents` bounds the step count. -/
def lookupBound (env : List (Nat × List RLink)) : Nat := (allParents env).length + 1

/-- The labelled `outer` loop of `lookup`: while a mount-info list is at hand,
follow its first unvisited link, prepending `(mount.path || "")` to the
accumulated path, marking the parent visited and moving to the parent's
mount-info list (`undefined` when the parent has none, which ends the loop);
when no unvisited link exists the loop ends and the accumulated path is
returned.  The loop is driven by fuel; `lookup` supplies enough for the walk
to finish on its own (see `lookupGo_stable`). -/
def lookupGo (env : List (Nat × List RLink)) (fuel : Nat)
    (oms : Option (List RLink)) (seen : List Nat) (path : JStr) : JStr :=
  match oms with
  | none => path
  | some ms =>
    match fuel with
    | 0 => path
    | fuel' + 1 =>
      match findLink ms seen with
      | none => path
      | some l =>
        lookupGo env fuel' (envGet env l.parent) (seen ++ [l.parent])
          ((l.path.getD []) ++ path)

/-- `exports.lookup(target)`: `""` when the target has no `mountInfo` list,
otherwise the walk starting from the target's own links with the target
pre-seeded into `seen`. -/
def lookup (env : List (Nat × List RLink)) (target : Nat) : JStr :=
  match envGet env target with
  | none => []
  | some ms => lookupGo env (lookupBound env) (some ms) [target] []

/-! ## Stick variant (src/lib/stick/middleware/mount.js) -/

/-- The per-request `req.env.lookupModule` function installed by the stick
variant's middleware (src/lib/stick/middleware/mount.js lines 58-71): look the
identifier up in the registration-time `reverse` table (which maps a module id
to its mount spec, of which only `canonicalPath` is consulted); on a hit with
a truthy canonical path return the captured base (`req.scriptName` at install
time) concatenated with it; otherwise delegate to the previously installed
resolver when one exists, else return the diagnostic placeholder
`"/_" + id + "_(unresolved_module)"`.  The JS builtin `encodeURI` (an external
collaborator) is the identity on URI-safe strings and is modelled as the
identity. -/
def lookupModuleFn (reverse : List (JStr × Option JStr)) (base : JStr)
    (parentLookup : Option (JStr → JStr)) (id : JStr) : JStr :=
  match envGet reverse id with
  | some cano =>
    if truthy cano then base ++ cano.getD []
    else
      match parentLookup with
      | some f => f id
      | none => str "/_" ++ id ++ str "_(unresolved_module)"
  | none =>
    match parentLookup with
    | some f => f id
    | none => str "/_" ++ id ++ str "_(unresolved_module)"

/-- The dispatch loop of the stick variant's middleware function
(src/lib/stick/middleware/mount.js lines 73-97): identical to `dispatchGo`
except that its registry entries carry no redirect flag, so the redirect guard
is only `req.pathInfo === mount.path && req.method === "GET"` (the `redirect`
field of the reused `Mount` structure is ignored). -/
def stickGo : List Mount → Request → DispatchResult
  | [], req => .toNext req
  | m :: rest, req =>
    if m.matches req then
      if jsStrictEq req.pathInfo m.path && req.method == str "GET" then
        .response 303 (redirectLocation m req)
          [str "See other: ", redirectLocation m req]
      else if truthy m.path then
        match req.pathInfo with
        | none => .jsError
        | some s =>
          .toApp m.appId
            { req with scriptName := req.scriptName ++ m.path.getD []
                       pathInfo := some (s.drop (m.path.getD []).length) }
      else .toApp m.appId req
    else stickGo rest req

/-- The stick variant's full middleware function `mount(req)`: capture
`base = req.scriptName` and the previously installed `req.env.lookupModule`,
install the new resolver into the request environment, then run the dispatch
loop.  The result pairs the dispatch outcome with the installed resolver. -/
def stickDispatch (reverse : List (JStr × Option JStr)) (mounts : List Mount)
    (req : Request) (parentLookup : Option (JStr → JStr)) :
    DispatchResult × (JStr → JStr) :=
  (stickGo mounts req, lookupModuleFn reverse req.scriptName parentLookup)

/-! ## Helper lemmas -/

theorem envGet_envSet_self {κ α : Type} [BEq κ] [LawfulBEq κ]
    (env : List (κ × α)) (k : κ) (v : α) : envGet (envSet env k v) k = some v := by
  induction env with
  | nil => simp [envGet, envSet]
  | cons p rest ih =>
    obtain ⟨k', v'⟩ := p
    by_cases h : k' == k
    · simp [envSet, h, envGet]
    · simp [envSet, h, envGet, ih]

/-- Inserting a mount moves it only past strictly more specific mounts, so the
subsequence of mounts with any fixed slash count gains the inserted mount at
the front exactly when it has that count. -/
theorem filter_orderedInsert_key (k : Nat) (x : Mount) (l : List Mount) :
    (List.orderedInsert relMount x l).filter (fun m => slashes m == k)
      = if slashes x == k then x :: l.filter (fun m => slashes m == k)
        else l.filter (fun m => slashes m == k) := by
  induction l with
  | nil => by_cases hx : slashes x == k <;> simp [List.orderedInsert, List.filter, hx]
  | cons b bs ih =>
    simp only [List.orderedInsert]
    by_cases hr : relMount x b
    · rw [if_pos hr]
      by_cases hx : slashes x == k <;> by_cases hb : slashes b == k <;>
        simp [List.filter_cons, hx, hb]
    · rw [if_neg hr]
      have hlt : slashes x < slashes b := Nat.lt_of_not_le hr
      by_cases hx : slashes x == k
      · have hxk : slashes x = k := by simpa using hx
        have hb : (slashes b == k) = false := by
          have : slashes b ≠ k := by omega
          simpa using this
        simp [List.filter_cons, hb, ih, hx]
      · by_cases hb : slashes b == k <;> simp [List.filter_cons, hb, ih, hx]

/-- The stable sort preserves the subsequence of mounts of each fixed slash
count (this is the stability of `insertionSort` specialized to the
specificity key). -/
theorem filter_insertionSort_key (k : Nat) (l : List Mount) :
    (List.insertionSort relMount l).filter (fun m => slashes m == k)
      = l.filter (fun m => slashes m == k) := by
  induction l with
  | nil => rfl
  | cons a l ih =>
    simp only [List.insertionSort]
    rw [filter_orderedInsert_key, ih]
    by_cases ha : slashes a == k <;> simp [List.filter_cons, ha]

theorem registerAll0_filter (k : Nat) :
    ∀ (calls : List (SpecArg × Nat × Bool)) (st st' : St),
      registerAll0 st calls = .ok st' →
      (registry0 st').filter (fun m => slashes m == k)
        = (registry0 st).filter (fun m => slashes m == k)
          ++ (pushedMounts calls).filter (fun m => slashes m == k) := by
  intro calls
  induction calls with
  | nil =>
    intro st st' h
    cases h
    simp [pushedMounts]
  | cons c cs ih =>
    intro st st' h
    cases hm : appMount st 0 c.1 c.2.1 c.2.2 with
    | error e => rw [registerAll0, hm] at h; cases h
    | ok st1 =>
      rw [registerAll0, hm] at h
      cases hb : buildMount c.1 c.2.1 c.2.2 with
      | none => rw [appMount, hb] at hm; cases hm
      | some m =>
        rw [appMount, hb] at hm
        have hst1 : st1.registries
            = envSet st.registries 0
                (List.insertionSort relMount ((envGet st.registries 0).getD [] ++ [m])) := by
          cases hm; rfl
        have hreg : registry0 st1
            = List.insertionSort relMount (registry0 st ++ [m]) := by
          rw [registry0, hst1, envGet_envSet_self]; rfl
        rw [ih st1 st' h, hreg, filter_insertionSort_key, List.filter_append]
        have hpush : pushedMounts (c :: cs) = m :: pushedMounts cs := by
          simp [pushedMounts, List.filterMap_cons, hb]
        rw [hpush]
        by_cases hx : slashes m == k <;>
          simp [List.filter_cons, hx, List.append_assoc]

theorem registerAll0_sorted :
    ∀ (calls : List (SpecArg × Nat × Bool)) (st st' : St),
      registerAll0 st calls = .ok st' → List.Sorted relMount (registry0 st) →
      List.Sorted relMount (registry0 st') := by
  intro calls
  induction calls with
  | nil => intro st st' h hs; cases h; exact hs
  | cons c cs ih =>
    intro st st' h hs
    cases hm : appMount st 0 c.1 c.2.1 c.2.2 with
    | error e => rw [registerAll0, hm] at h; cases h
    | ok st1 =>
      rw [registerAll0, hm] at h
      cases hb : buildMount c.1 c.2.1 c.2.2 with
      | none => rw [appMount, hb] at hm; cases hm
      | some m =>
        rw [appMount, hb] at hm
        have hst1 : st1.registries
            = envSet st.registries 0
                (List.insertionSort relMount ((envGet st.registries 0).getD [] ++ [m])) := by
          cases hm; rfl
        have hreg : registry0 st1
            = List.insertionSort relMount (registry0 st ++ [m]) := by
          rw [registry0, hst1, envGet_envSet_self]; rfl
        refine ih st1 st' h ?_
        rw [hreg]
        exact List.sorted_insertionSort relMount _

/-! ## Claim C1 -/

/-- Concrete registration sequence used to witness C1: specificities 1, 2, 1. -/
def c1calls : List (SpecArg × Nat × Bool) :=
  [(.strArg (str "/a"), 1, false), (.strArg (str "/a/b"), 2, false),
   (.strArg (str "/c"), 3, false)]

/-- C1: after every sequence of successful `mount` registrations, the registry
is sorted by descending slash count of the mount paths (a pathless mount
counting 0), and the mounts of each fixed slash count appear exactly in their
registration order (so a newly added mount of equal specificity is placed
after the existing ones): the registry's subsequence at each specificity
equals the raw push-order list's subsequence at that specificity. -/
theorem C1_registry_sorted_and_stable (calls : List (SpecArg × Nat × Bool))
    (h : exceptOk (registerAll0 stEmpty calls) = true) :
    List.Sorted relMount (registry0 (exceptState (registerAll0 stEmpty calls))) ∧
    ∀ k, (registry0 (exceptState (registerAll0 stEmpty calls))).filter
            (fun m => slashes m == k)
        = (pushedMounts calls).filter (fun m => slashes m == k) := by
  cases he : registerAll0 stEmpty calls with
  | error e => rw [he] at h; cases h
  | ok st' =>
    have hempty : registry0 stEmpty = [] := rfl
    constructor
    · have := registerAll0_sorted calls stEmpty st' he (by rw [hempty]; exact List.sorted_nil)
      simpa [exceptState] using this
    · intro k
      have := registerAll0_filter k calls stEmpty st' he
      rw [hempty] at this
      simpa [exceptState] using this

theorem C1_registry_sorted_and_stable_witness :
    exceptOk (registerAll0 stEmpty c1calls) = true ∧
    (List.Sorted relMount (registry0 (exceptState (registerAll0 stEmpty c1calls))) ∧
     ∀ k, (registry0 (exceptState (registerAll0 stEmpty c1calls))).filter
             (fun m => slashes m == k)
         = (pushedMounts c1calls).filter (fun m => slashes m == k)) :=
  ⟨by decide, C1_registry_sorted_and_stable c1calls (by decide)⟩

/-! ## Claims C2, C3, C4 (dispatch) -/

/-- The dispatch loop skips every non-matching registry entry. -/
theorem dispatchGo_append (pre rest : List Mount) (req : Request)
    (h : ∀ m ∈ pre, m.matches req = false) :
    dispatchGo (pre ++ rest) req = dispatchGo rest req := by
  induction pre with
  | nil => rfl
  | cons a pre ih =>
    have ha : a.matches req = false := h a (List.mem_cons_self a pre)
    rw [List.cons_append, dispatchGo, ha]
    simp only [Bool.false_eq_true, if_false]
    exact ih (fun m hm => h m (List.mem_cons_of_mem a hm))

/-- With no matching registry entry the dispatch loop falls through. -/
theorem dispatchGo_no_match (mounts : List Mount) (req : Request)
    (h : ∀ m ∈ mounts, m.matches req = false) :
    dispatchGo mounts req = .toNext req := by
  have := dispatchGo_append mounts [] req h
  rwa [List.append_nil] at this

/-- With no matching registry entry the stick variant's dispatch loop also
falls through. -/
theorem stickGo_no_match (mounts : List Mount) (req : Request)
    (h : ∀ m ∈ mounts, m.matches req = false) :
    stickGo mounts req = .toNext req := by
  induction mounts with
  | nil => rfl
  | cons a rest ih =>
    have ha : a.matches req = false := h a (List.mem_cons_self a rest)
    rw [stickGo, ha]
    simp only [Bool.false_eq_true, if_false]
    exact ih (fun m hm => h m (List.mem_cons_of_mem a hm))

/-- Mount of `"/wiki"` on app 1, as registration produces it. -/
def wikiMount : Mount :=
  ⟨some (str "/wiki"), some (str "/wiki/"), none, true, 1⟩

/-- The same mount registered with `noRedirect = true`. -/
def wikiMountNR : Mount :=
  ⟨some (str "/wiki"), some (str "/wiki/"), none, false, 1⟩

/-- `GET /wiki` at the root, no query string. -/
def wreq : Request := ⟨[], some (str "/wiki"), [], str "GET", []⟩

/-- `GET /wiki/Page` at the root. -/
def wreq2 : Request := ⟨[], some (str "/wiki/Page"), [], str "GET", []⟩

/-- C2: for the first matching mount, when it has a (truthy) path, dispatch
answers with the 303 canonicalization redirect — whose `location` is
`scriptName + canonicalPath` plus `"?" + queryString` when the query string is
non-empty — without invoking the mounted handler, exactly when the mount's
redirect policy is enabled, the raw `pathInfo` equals the mount path exactly,
and the method is `GET`; and a mount registered with `noRedirect = true` never
303s the bare prefix: the bare-prefix GET is dispatched to the handler with
`pathInfo = ""`. -/
theorem C2_redirect_iff (pre post : List Mount) (m : Mount) (req : Request)
    (p cp : JStr)
    (hpre : ∀ m' ∈ pre, m'.matches req = false)
    (hm : m.matches req = true)
    (hp : m.path = some p) (hpne : p ≠ [])
    (hcp : m.canonicalPath = some cp) :
    ((dispatchGo (pre ++ m :: post) req
        = .response 303 (redirectLocation m req)
            [str "See other: ", redirectLocation m req])
      ↔ (m.redirect = true ∧ req.pathInfo = some p ∧ req.method = str "GET")) ∧
    redirectLocation m req
      = req.scriptName ++ cp
          ++ (if req.queryString.isEmpty then [] else '?' :: req.queryString) ∧
    (m.redirect = false → req.pathInfo = some p → req.method = str "GET" →
      dispatchGo (pre ++ m :: post) req
        = .toApp m.appId { req with scriptName := req.scriptName ++ p,
                                    pathInfo := some [] }) := by
  rw [dispatchGo_append pre (m :: post) req hpre]
  have htr : truthy m.path = true := by
    rw [hp]
    simpa [truthy, List.isEmpty_iff] using hpne
  refine ⟨?_, ?_, ?_⟩
  · by_cases hg : redirectGuard m req = true
    · have hcomp : m.redirect = true ∧ req.pathInfo = some p ∧ req.method = str "GET" := by
        rw [redirectGuard, hp] at hg
        simp only [Bool.and_eq_true, beq_iff_eq] at hg
        obtain ⟨⟨h1, h2⟩, h3⟩ := hg
        refine ⟨h1, ?_, h3⟩
        cases hpi : req.pathInfo with
        | none => rw [hpi] at h2; cases h2
        | some s =>
          rw [hpi] at h2
          have : s = p := by simpa [jsStrictEq] using h2
          rw [this]
      rw [dispatchGo, hm]
      simp only [if_true, hg]
      simp [hcomp]
    · have hgf : redirectGuard m req = false := by
        cases hgg : redirectGuard m req
        · rfl
        · exact absurd hgg hg
      rw [dispatchGo, hm]
      simp only [if_true, hgf, Bool.false_eq_true, if_false, htr, if_true]
      constructor
      · intro hres
        exfalso
        cases hpi : req.pathInfo with
        | none => rw [hpi] at hres; cases hres
        | some s => rw [hpi] at hres; cases hres
      · rintro ⟨h1, h2, h3⟩
        exfalso
        apply hg
        rw [redirectGuard, hp, h1, h2, h3]
        simp [jsStrictEq]
  · rw [redirectLocation, hcp]
    rfl
  · intro h1 h2 h3
    have hgf : redirectGuard m req = false := by
      rw [redirectGuard, h1]
      rfl
    rw [dispatchGo, hm]
    simp only [if_true, hgf, Bool.false_eq_true, if_false, htr, if_true, h2]
    rw [hp]
    simp [List.drop_length]

theorem C2_redirect_iff_witness :
    wikiMount.matches wreq = true ∧
    (((dispatchGo [wikiMount] wreq
        = .response 303 (redirectLocation wikiMount wreq)
            [str "See other: ", redirectLocation wikiMount wreq])
      ↔ (wikiMount.redirect = true ∧ wreq.pathInfo = some (str "/wiki")
          ∧ wreq.method = str "GET")) ∧
     redirectLocation wikiMount wreq
      = wreq.scriptName ++ str "/wiki/"
          ++ (if wreq.queryString.isEmpty then [] else '?' :: wreq.queryString) ∧
     (wikiMount.redirect = false → wreq.pathInfo = some (str "/wiki") →
      wreq.method = str "GET" →
      dispatchGo [wikiMount] wreq
        = .toApp wikiMount.appId
            { wreq with scriptName := wreq.scriptName ++ str "/wiki",
                        pathInfo := some [] })) :=
  ⟨by decide,
   C2_redirect_iff [] [] wikiMount wreq (str "/wiki") (str "/wiki/")
     (by intro m' hm'; cases hm') (by decide) rfl (by decide) rfl⟩

/-- Handlers used to witness the dispatch claims. -/
def appsW : Nat → Request → Response := fun i _ => ⟨200, [], [str "app", [Char.ofNat (48 + i)]]⟩

/-- Wrapped chain used to witness the dispatch claims. -/
def nextW : Request → Response := fun _ => ⟨404, [], [str "next"]⟩

/-- C3: when the first matching mount fires no redirect, dispatch rewrites the
request in place before invoking the handler — `scriptName` becomes the old
`scriptName` concatenated with the mount path and `pathInfo` loses exactly the
first `len(path)` characters (preserving a leading `/` of the remainder) —
while a matching pathless (host-only) mount leaves the request untouched; in
both cases the mounted handler's response is returned verbatim. -/
theorem C3_rewrite (pre post : List Mount) (m : Mount) (req : Request)
    (apps : Nat → Request → Response) (next : Request → Response)
    (hpre : ∀ m' ∈ pre, m'.matches req = false)
    (hm : m.matches req = true)
    (hg : redirectGuard m req = false) :
    (∀ p s, m.path = some p → p ≠ [] → req.pathInfo = some s →
      dispatchGo (pre ++ m :: post) req
        = .toApp m.appId { req with scriptName := req.scriptName ++ p,
                                    pathInfo := some (s.drop p.length) } ∧
      mountMw apps next (pre ++ m :: post) req
        = some (apps m.appId { req with scriptName := req.scriptName ++ p,
                                        pathInfo := some (s.drop p.length) })) ∧
    (truthy m.path = false →
      dispatchGo (pre ++ m :: post) req = .toApp m.appId req ∧
      mountMw apps next (pre ++ m :: post) req = some (apps m.appId req)) := by
  have hskip : dispatchGo (pre ++ m :: post) req = dispatchGo (m :: post) req :=
    dispatchGo_append pre (m :: post) req hpre
  constructor
  · intro p s hp hpne hpi
    have htr : truthy m.path = true := by
      rw [hp]
      simpa [truthy, List.isEmpty_iff] using hpne
    have hd : dispatchGo (pre ++ m :: post) req
        = .toApp m.appId { req with scriptName := req.scriptName ++ p,
                                    pathInfo := some (s.drop p.length) } := by
      rw [hskip, dispatchGo, hm]
      simp only [if_true, hg, Bool.false_eq_true, if_false, hpi, hp]
      simp [truthy, List.isEmpty_iff, hpne]
    exact ⟨hd, by rw [mountMw, hd]; rfl⟩
  · intro htf
    have hd : dispatchGo (pre ++ m :: post) req = .toApp m.appId req := by
      rw [hskip, dispatchGo, hm]
      simp only [if_true, hg, Bool.false_eq_true, if_false, htf, if_false]
    exact ⟨hd, by rw [mountMw, hd]; rfl⟩

theorem C3_rewrite_witness :
    wikiMount.matches wreq2 = true ∧
    redirectGuard wikiMount wreq2 = false ∧
    (dispatchGo [wikiMount] wreq2
      = .toApp 1 ⟨str "/wiki", some (str "/Page"), [], str "GET", []⟩ ∧
     mountMw appsW nextW [wikiMount] wreq2
      = some (appsW 1 ⟨str "/wiki", some (str "/Page"), [], str "GET", []⟩)) :=
  ⟨by decide, by decide,
   (C3_rewrite [] [] wikiMount wreq2 appsW nextW
      (by intro m' hm'; cases hm') (by decide) (by decide)).1
     (str "/wiki") (str "/wiki/Page") rfl (by decide) rfl⟩

/-- C4: a request matching no registered mount falls through to the wrapped
chain with the request object unmodified (the very same `scriptName`,
`pathInfo`, headers, `method` and `queryString`), in both the current
middleware and the stick variant (whose dispatch loop likewise leaves the
request untouched on fall-through). -/
theorem C4_fallthrough (mounts : List Mount) (req : Request)
    (reverse : List (JStr × Option JStr)) (parentLookup : Option (JStr → JStr))
    (h : ∀ m ∈ mounts, m.matches req = false) :
    dispatchGo mounts req = .toNext req ∧
    stickGo mounts req = .toNext req ∧
    (stickDispatch reverse mounts req parentLookup).1 = .toNext req :=
  ⟨dispatchGo_no_match mounts req h, stickGo_no_match mounts req h,
   stickGo_no_match mounts req h⟩

theorem C4_fallthrough_witness :
    (∀ m ∈ [wikiMount], m.matches ⟨[], some (str "/blog"), [], str "GET", []⟩ = false) ∧
    dispatchGo [wikiMount] ⟨[], some (str "/blog"), [], str "GET", []⟩
      = .toNext ⟨[], some (str "/blog"), [], str "GET", []⟩ ∧
    stickGo [wikiMount] ⟨[], some (str "/blog"), [], str "GET", []⟩
      = .toNext ⟨[], some (str "/blog"), [], str "GET", []⟩ ∧
    (stickDispatch [] [wikiMount] ⟨[], some (str "/blog"), [], str "GET", []⟩ none).1
      = .toNext ⟨[], some (str "/blog"), [], str "GET", []⟩ :=
  ⟨by decide,
   C4_fallthrough [wikiMount] ⟨[], some (str "/blog"), [], str "GET", []⟩ [] none
     (by decide)⟩

/-! ## Claim C5 (corrected) -/

/-- C5 counterexample: an object spec supplying neither `path` nor `host` is
accepted — the registration call succeeds instead of raising, refuting the
claimed "raises if and only if neither path nor host is supplied". -/
theorem C5_counterexample :
    exceptOk (appMount stEmpty 0 (.obj ⟨none, none⟩) 1 false) = true := by decide

/-- C5 amended: the registration call raises the missing-spec error exactly
when the `spec` argument is falsy and not a string (`null`/`undefined`);
a string spec — even the empty string — and any object spec are accepted
without error (an object with neither path nor host registers a catch-all
mount), and on the error no state change happens (the call returns no new
registry). -/
theorem C5_missing_spec_iff (st : St) (owner : Nat) (spec0 : SpecArg)
    (target : Nat) (noRedirect : Bool) :
    appMount st owner spec0 target noRedirect = .error () ↔ spec0 = .nullish := by
  cases spec0 with
  | strArg s => simp [appMount, buildMount]
  | obj o => simp [appMount, buildMount]
  | nullish => simp [appMount, buildMount]

theorem C5_missing_spec_iff_witness :
    (appMount stEmpty 0 .nullish 1 false = .error () ↔ SpecArg.nullish = .nullish) ∧
    (appMount stEmpty 0 (.strArg []) 1 false = .error () ↔ SpecArg.strArg [] = .nullish) :=
  ⟨C5_missing_spec_iff stEmpty 0 .nullish 1 false,
   C5_missing_spec_iff stEmpty 0 (.strArg []) 1 false⟩

/-! ## Claim C6 (host-suffix matching) -/

/-- Host-only mount of `"example.com"` on app 1, as registration produces it. -/
def exHostMount : Mount :=
  (buildMount (.obj ⟨none, some (str "example.com")⟩) 1 false).getD
    ⟨none, none, none, true, 0⟩

/-- C6: the host test passes exactly when the mount has no host constraint, or
the request's Host header is non-empty and ends with the configured suffix;
concretely, a mount constrained to `example.com` matches a request with
`Host: sub.example.com` and does not match one with `Host: example.org`. -/
theorem C6_host_suffix :
    (∀ (mhost : Option JStr) (hh : JStr),
        hostMatches mhost hh = true ↔
          (truthy mhost = false ∨ (hh ≠ [] ∧ jsEndsWith hh (jsStrOf mhost) = true))) ∧
    exHostMount.matches ⟨[], some (str "/x"), str "sub.example.com", str "GET", []⟩
      = true ∧
    exHostMount.matches ⟨[], some (str "/x"), str "example.org", str "GET", []⟩
      = false := by
  refine ⟨?_, by decide, by decide⟩
  intro mhost hh
  rw [hostMatches]
  cases htm : truthy mhost <;>
    simp [List.isEmpty_iff, and_comm]

theorem C6_host_suffix_witness :
    hostMatches (some (str "example.com")) (str "sub.example.com") = true ↔
      (truthy (some (str "example.com")) = false ∨
        (str "sub.example.com" ≠ [] ∧
          jsEndsWith (str "sub.example.com") (jsStrOf (some (str "example.com"))) = true)) :=
  C6_host_suffix.1 (some (str "example.com")) (str "sub.example.com")

/-! ## Claim C7 (reverse-resolution round-trip) -/

/-- State after mounting app 1 under app 0 at `"/b"`. -/
def c7st1 : Except Unit St := appMount stEmpty 0 (.strArg (str "/b")) 1 false

/-- State after additionally mounting app 1 under app 2 at `"/c"`. -/
def c7st2 : Except Unit St :=
  c7st1.bind (fun s => appMount s 2 (.strArg (str "/c")) 1 false)

/-- C7: mounting app B (id 1) under app A (id 0) at `"/b"`, with B having no
prior links, makes `lookup B` return `"/b"`; after additionally mounting B
under app C (id 2) at `"/c"`, `lookup B` still returns `"/b"` — the walk
follows the first-registered link whose parent is unvisited at each level. -/
theorem C7_roundtrip :
    exceptOk c7st1 = true ∧
    lookup (exceptState c7st1).mountInfo 1 = str "/b" ∧
    exceptOk c7st2 = true ∧
    lookup (exceptState c7st2).mountInfo 1 = str "/b" := by
  refine ⟨by decide, by decide, by decide, by decide⟩

/-! ## Claim C8 (lookup termination and totality) -/

theorem lookupGo_none (env : List (Nat × List RLink)) (fuel : Nat)
    (seen : List Nat) (path : JStr) : lookupGo env fuel none seen path = path := by
  cases fuel <;> rfl

theorem memb_iff (a : Nat) (l : List Nat) : memb a l = true ↔ a ∈ l := by
  induction l with
  | nil => simp [memb]
  | cons b rest ih =>
    by_cases h : b == a
    · have : b = a := by simpa using h
      simp [memb, h, this]
    · have : ¬ b = a := by simpa using h
      simp [memb, h, ih, this, eq_comm]
      intro hba
      exact absurd hba.symm this

theorem memb_eq_false (a : Nat) (l : List Nat) : memb a l = false ↔ a ∉ l := by
  rw [← memb_iff]
  cases memb a l <;> simp

theorem envGet_links_sub (env : List (Nat × List RLink)) :
    ∀ k ls, envGet env k = some ls → ∀ l ∈ ls, l ∈ allLinks env := by
  induction env with
  | nil => intro k ls h; cases h
  | cons p rest ih =>
    obtain ⟨k', ls'⟩ := p
    intro k ls h l hl
    show l ∈ ls' ++ allLinks rest
    by_cases hk : k' == k
    · rw [envGet, if_pos hk] at h
      cases h
      exact List.mem_append.2 (Or.inl hl)
    · rw [envGet, if_neg hk] at h
      exact List.mem_append.2 (Or.inr (ih k ls h l hl))

/-- Parents of the given table not yet visited: the decreasing measure of the
`lookup` walk. -/
def countNew (env : List (Nat × List RLink)) (seen : List Nat) : Nat :=
  ((allParents env).filter (fun a => !(memb a seen))).length

theorem countNew_lt (env : List (Nat × List RLink)) (seen : List Nat) (p : Nat)
    (hp : p ∈ allParents env) (hns : memb p seen = false) :
    countNew env (seen ++ [p]) < countNew env seen := by
  have hsub : List.Sublist ((allParents env).filter (fun a => !(memb a (seen ++ [p]))))
      ((allParents env).filter (fun a => !(memb a seen))) := by
    apply List.monotone_filter_right
    intro a ha
    have ha' : a ∉ seen ++ [p] := by
      have : memb a (seen ++ [p]) = false := by
        cases hma : memb a (seen ++ [p])
        · rfl
        · rw [hma] at ha; cases ha
      exact (memb_eq_false _ _).1 this
    have : a ∉ seen := fun hin => ha' (List.mem_append.2 (Or.inl hin))
    simpa [memb_eq_false] using this
  have hp1 : p ∈ (allParents env).filter (fun a => !(memb a seen)) :=
    List.mem_filter.2 ⟨hp, by simp [hns]⟩
  have hp2 : p ∉ (allParents env).filter (fun a => !(memb a (seen ++ [p]))) := by
    intro hmem
    have h2 := (List.mem_filter.1 hmem).2
    simp [memb_eq_false] at h2
  rcases Nat.lt_or_ge (countNew env (seen ++ [p])) (countNew env seen) with h | h
  · exact h
  · exfalso
    have heq := Nat.le_antisymm hsub.length_le h
    have := hsub.eq_of_length heq
    rw [this] at hp2
    exact hp2 hp1

/-- The fuel-driven walk stabilizes: any two fuel amounts strictly above the
count of not-yet-visited recorded parents compute the same result — this is
the termination of `lookup`'s `outer` loop (each iteration visits a new
recorded parent). -/
theorem lookupGo_stable_aux (env : List (Nat × List RLink)) :
    ∀ fuel1 fuel2 oms seen path,
      (∀ ls, oms = some ls → ∀ l ∈ ls, l ∈ allLinks env) →
      countNew env seen < fuel1 → countNew env seen < fuel2 →
      lookupGo env fuel1 oms seen path = lookupGo env fuel2 oms seen path := by
  intro fuel1
  induction fuel1 with
  | zero => intro fuel2 oms seen path _ h1 _; omega
  | succ f1 ih =>
    intro fuel2 oms seen path hsub h1 h2
    cases oms with
    | none => rw [lookupGo_none, lookupGo_none]
    | some ms =>
      cases fuel2 with
      | zero => omega
      | succ f2 =>
        have e1 : lookupGo env (f1 + 1) (some ms) seen path
            = match findLink ms seen with
              | none => path
              | some l =>
                lookupGo env f1 (envGet env l.parent) (seen ++ [l.parent])
                  ((l.path.getD []) ++ path) := rfl
        have e2 : lookupGo env (f2 + 1) (some ms) seen path
            = match findLink ms seen with
              | none => path
              | some l =>
                lookupGo env f2 (envGet env l.parent) (seen ++ [l.parent])
                  ((l.path.getD []) ++ path) := rfl
        rw [e1, e2]
        cases hf : findLink ms seen with
        | none => rfl
        | some l =>
          show lookupGo env f1 (envGet env l.parent) (seen ++ [l.parent])
                ((l.path.getD []) ++ path)
              = lookupGo env f2 (envGet env l.parent) (seen ++ [l.parent])
                ((l.path.getD []) ++ path)
          have hlm : l ∈ ms := List.mem_of_find?_eq_some hf
          have hpred := List.find?_some hf
          have hnseen : memb l.parent seen = false := by
            cases hmp : memb l.parent seen
            · rfl
            · rw [hmp] at hpred; cases hpred
          have hpl : l ∈ allLinks env := hsub ms rfl l hlm
          have hpar : l.parent ∈ allParents env := List.mem_map_of_mem RLink.parent hpl
          have hdec := countNew_lt env seen l.parent hpar hnseen
          exact ih f2 (envGet env l.parent) (seen ++ [l.parent])
            ((l.path.getD []) ++ path)
            (fun ls' hls' => envGet_links_sub env l.parent ls' hls')
            (by omega) (by omega)

theorem countNew_lt_bound (env : List (Nat × List RLink)) (seen : List Nat) :
    countNew env seen < lookupBound env := by
  have := (List.filter_sublist (l := allParents env)
    (p := fun a => !(memb a seen))).length_le
  rw [countNew, lookupBound]
  omega

/-- The two-application link cycle: app 0's link names app 1 as parent with
path `"/a"`, app 1's link names app 0 as parent with path `"/b"`. -/
def cycleEnv : List (Nat × List RLink) :=
  [(0, [⟨1, some (str "/a"), none⟩]), (1, [⟨0, some (str "/b"), none⟩])]

/-- C8: reverse resolution is total.  With fuel at least `lookupBound` the
walk has fully stabilized (it terminates on its own by visiting a fresh
recorded parent each step), so `lookup` computes the walk's true limit and
returns a finite string for every handler and every link structure; a handler
with no recorded links (absent or empty `mountInfo`) yields `""`; and on the
two-application link cycle the walk stops at the already-visited parent and
returns the finite string `"/a"` instead of looping. -/
theorem C8_lookup_total :
    (∀ env target fuel, lookupBound env ≤ fuel →
        lookupGo env fuel (envGet env target) [target] [] = lookup env target) ∧
    (∀ env target, envGet env target = none → lookup env target = []) ∧
    (∀ env target, envGet env target = some [] → lookup env target = []) ∧
    lookup cycleEnv 0 = str "/a" := by
  refine ⟨?_, ?_, ?_, by decide⟩
  · intro env target fuel hfuel
    cases he : envGet env target with
    | none => rw [lookup, he]; exact lookupGo_none env fuel [target] []
    | some ms =>
      rw [lookup, he]
      exact lookupGo_stable_aux env fuel (lookupBound env) (some ms) [target] []
        (fun ls hls => by
          cases hls
          exact envGet_links_sub env target ms he)
        (by have := countNew_lt_bound env [target]; omega)
        (countNew_lt_bound env [target])
  · intro env target he
    rw [lookup, he]
  · intro env target he
    rw [lookup, he]
    show lookupGo env ((allParents env).length + 1) (some []) [target] [] = []
    rfl

theorem C8_lookup_total_witness :
    lookupGo cycleEnv (lookupBound cycleEnv + 5) (envGet cycleEnv 0) [0] []
      = lookup cycleEnv 0 ∧
    lookup [] 0 = [] ∧
    lookup [(4, [])] 4 = [] ∧
    lookup cycleEnv 0 = str "/a" :=
  ⟨C8_lookup_total.1 cycleEnv 0 (lookupBound cycleEnv + 5) (by omega),
   C8_lookup_total.2.1 [] 0 rfl,
   C8_lookup_total.2.2.1 [(4, [])] 4 (by decide),
   C8_lookup_total.2.2.2⟩

/-! ## Claim C9 (per-request module-id resolver) -/

/-- C9: the resolver installed into the request environment maps an identifier
registered (with a truthy canonical path) to the captured enclosing
`scriptName` concatenated with that canonical path; an identifier it does not
know is delegated to the enclosing resolver when one is installed, and
otherwise yields the sentinel placeholder `"/_" + id + "_(unresolved_module)"`
instead of raising; and the stick dispatcher installs exactly this resolver,
capturing `req.scriptName` as the base. -/
theorem C9_lookup_module :
    (∀ (reverse : List (JStr × Option JStr)) (base : JStr)
        (parentLookup : Option (JStr → JStr)) (id cp : JStr),
        envGet reverse id = some (some cp) → cp ≠ [] →
        lookupModuleFn reverse base parentLookup id = base ++ cp) ∧
    (∀ (reverse : List (JStr × Option JStr)) (base : JStr)
        (f : JStr → JStr) (id : JStr),
        envGet reverse id = none →
        lookupModuleFn reverse base (some f) id = f id) ∧
    (∀ (reverse : List (JStr × Option JStr)) (base : JStr) (id : JStr),
        envGet reverse id = none →
        lookupModuleFn reverse base none id
          = str "/_" ++ id ++ str "_(unresolved_module)") ∧
    (∀ (reverse : List (JStr × Option JStr)) (mounts : List Mount)
        (req : Request) (parentLookup : Option (JStr → JStr)),
        (stickDispatch reverse mounts req parentLookup).2
          = lookupModuleFn reverse req.scriptName parentLookup) := by
  refine ⟨?_, ?_, ?_, fun _ _ _ _ => rfl⟩
  · intro reverse base parentLookup id cp hfind hne
    rw [lookupModuleFn.eq_def, hfind]
    have ht : truthy (some cp) = true := by
      simpa [truthy, List.isEmpty_iff] using hne
    show (if truthy (some cp) = true then base ++ (some cp).getD []
          else match parentLookup with
               | some f => f id
               | none => str "/_" ++ id ++ str "_(unresolved_module)") = base ++ cp
    rw [if_pos ht]
    rfl
  · intro reverse base f id hfind
    rw [lookupModuleFn.eq_def, hfind]
  · intro reverse base id hfind
    rw [lookupModuleFn.eq_def, hfind]

/-- The registration-time `reverse` table used to witness C9: module id
`"wiki"` registered at canonical path `"/wiki/"`. -/
def c9reverse : List (JStr × Option JStr) := [(str "wiki", some (str "/wiki/"))]

theorem C9_lookup_module_witness :
    lookupModuleFn c9reverse (str "/app") none (str "wiki")
      = str "/app" ++ str "/wiki/" ∧
    lookupModuleFn c9reverse (str "/app") (some (fun i => str "/p" ++ i)) (str "blog")
      = (fun i => str "/p" ++ i) (str "blog") ∧
    lookupModuleFn c9reverse (str "/app") none (str "blog")
      = str "/_" ++ str "blog" ++ str "_(unresolved_module)" ∧
    (stickDispatch c9reverse [] wreq none).2
      = lookupModuleFn c9reverse wreq.scriptName none :=
  ⟨C9_lookup_module.1 c9reverse (str "/app") none (str "wiki") (str "/wiki/")
     (by decide) (by decide),
   C9_lookup_module.2.1 c9reverse (str "/app") (fun i => str "/p" ++ i) (str "blog")
     (by decide),
   C9_lookup_module.2.2.1 c9reverse (str "/app") (str "blog") (by decide),
   C9_lookup_module.2.2.2 c9reverse [] wreq none⟩

/-! ## Claim C10 (absent/empty pathInfo) -/

/-- C10: a request whose `pathInfo` is absent or empty is matched as the path
`"/"`: it passes the path test of any mount with a falsy path — a host-only
mount or one whose canonical path is `"/"` — and fails the path test of any
mount with a longer prefix (a truthy path other than `"/"` itself); the
redirect comparison, by contrast, uses the raw `pathInfo` without the
substitution: with an absent `pathInfo` the guard is false for every mount
with a truthy path, and with an empty `pathInfo` it is false for every mount
with a non-empty path. -/
theorem C10_default_path :
    (effPath none = str "/" ∧ effPath (some []) = str "/") ∧
    (∀ (mpath mcanonical : Option JStr) (pi : Option JStr),
        truthy mpath = false → (pi = none ∨ pi = some []) →
        pathMatches mpath mcanonical pi = true) ∧
    (∀ (p : JStr) (pi : Option JStr), p ≠ [] → p ≠ str "/" →
        (pi = none ∨ pi = some []) →
        pathMatches (some p) (some (p ++ str "/")) pi = false) ∧
    (∀ (m : Mount) (req : Request), truthy m.path = true → req.pathInfo = none →
        redirectGuard m req = false) ∧
    (∀ (m : Mount) (req : Request) (p : JStr), m.path = some p → p ≠ [] →
        req.pathInfo = some [] → redirectGuard m req = false) := by
  refine ⟨⟨rfl, rfl⟩, ?_, ?_, ?_, ?_⟩
  · intro mpath mcanonical pi hfalsy hpi
    rcases hpi with h | h <;> rw [h] <;> simp [pathMatches, hfalsy]
  · intro p pi hne hnslash hpi
    have heff : effPath pi = str "/" := by
      rcases hpi with h | h <;> rw [h] <;> rfl
    have htr : truthy (some p) = true := by
      simpa [truthy, List.isEmpty_iff] using hne
    have hne2 : jsStrictEqS (str "/") (some p) = false := by
      have : ¬ (str "/" = p) := fun hh => hnslash hh.symm
      simpa [jsStrictEqS] using this
    have hnp : jsStartsWith (str "/") (jsStrOf (some (p ++ str "/"))) = false := by
      cases hsw : jsStartsWith (str "/") (jsStrOf (some (p ++ str "/")))
      · rfl
      · exfalso
        rw [jsStartsWith, jsStrOf] at hsw
        have hpre := (List.isPrefixOf_iff_prefix).1 hsw
        have hlen := hpre.length_le
        have : p.length + 1 ≤ 1 := by
          simpa [str] using hlen
        have : p = [] := by
          cases p with
          | nil => rfl
          | cons a as => simp at this
        exact hne this
    rw [pathMatches]
    simp only [heff, htr, hne2, hnp]
    rfl
  · intro m req htr hpi
    cases hp : m.path with
    | none => rw [hp] at htr; cases htr
    | some p =>
      rw [redirectGuard, hpi, hp]
      simp [jsStrictEq]
  · intro m req p hp hne hpi
    rw [redirectGuard, hpi, hp]
    have : (([] : JStr) == p) = false := by
      cases p with
      | nil => exact absurd rfl hne
      | cons a as => rfl
    simp [jsStrictEq, this]

/-- Mount of `"//"` — normalized to path `"/"`, canonical `"//"` — used to
contrast the match substitution with the raw redirect comparison. -/
def slashMount : Mount := ⟨some (str "/"), some (str "//"), none, true, 2⟩

theorem C10_default_path_witness :
    (effPath none = str "/" ∧ effPath (some []) = str "/") ∧
    pathMatches none none none = true ∧
    pathMatches (some []) (some (str "/")) (some []) = true ∧
    pathMatches (some (str "/wiki")) (some (str "/wiki" ++ str "/")) none = false ∧
    redirectGuard slashMount ⟨[], none, [], str "GET", []⟩ = false ∧
    redirectGuard wikiMount ⟨[], some [], [], str "GET", []⟩ = false :=
  ⟨C10_default_path.1,
   C10_default_path.2.1 none none none rfl (Or.inl rfl),
   C10_default_path.2.1 (some []) (some (str "/")) (some []) rfl (Or.inr rfl),
   C10_default_path.2.2.1 (str "/wiki") none (by decide) (by decide) (Or.inl rfl),
   C10_default_path.2.2.2.1 slashMount ⟨[], none, [], str "GET", []⟩ (by decide) rfl,
   C10_default_path.2.2.2.2 wikiMount ⟨[], some [], [], str "GET", []⟩ (str "/wiki")
     rfl (by decide) rfl⟩

end Stick
